import Mathlib

/-!
Shallow embedding of the PyBeeb 6502 emulator core (memory subsystem,
register bank, Unicorn-style facade, MOS helpers, host traps) together
with proofs settling the frozen claims about its specification.

Conventions: Python integers are `Int`; the 64 KiB byte store and mapped
devices are functions `Int → Int`; fallible operations return `Except`;
embedded `while` loops take a fuel argument and return `Option` (with
`none` meaning the fuel ran out, i.e. the loop had not terminated yet).
-/

set_option autoImplicit false

namespace PyBeeb

/-- Errors raised by the memory subsystem (CPU/Memory.py):
`InvalidAddressException` and `ValueOutOfRange`. -/
inductive PyErr where
  | invalidAddress (address : Int)
  | valueOutOfRange (value : Int)
deriving DecidableEq, Repr

/-- One mapping region (`Memory.Map` in CPU/Memory.py).  `range` is stored as
`(base, end)`; the source documents `end` as inclusive (`Map.end`, here named
`last` because `end` is a Lean keyword).  The mapped device's `readByte`
callback is modelled as a pure function from region-local offset to byte;
device `writeByte` calls are recorded in a log on the memory state. -/
structure MapRegion where
  base : Int
  last : Int
  dev : Int → Int

/-- Memory state (`Memory` in CPU/Memory.py): the 64 KiB byte array as a
function, the ordered list of mapping regions, and a log of the
`mappedDevice.writeByte(offset, value)` calls made so far (recorded as
`(region base, offset, value)` triples, modelling the observable effect of
writes that are redirected to a device). -/
structure Mem where
  ram : Int → Int
  maps : List MapRegion
  devWrites : List (Int × Int × Int)

/-- `Map.isInMap(address)`: `address >= base and address <= end` (end inclusive). -/
def MapRegion.isInMap (m : MapRegion) (address : Int) : Bool :=
  decide (address ≥ m.base ∧ address ≤ m.last)

/-- `Memory.getMapFor(address)`: the last map in the list containing the address. -/
def getMapFor (maps : List MapRegion) (address : Int) : Option MapRegion :=
  (maps.filter (fun m => m.isInMap address)).getLast?

/-- `Memory.getNextMap(address)`: the map with the smallest base strictly above
`address`, scanning the list in order (first map with that base wins ties). -/
def getNextMap (maps : List MapRegion) (address : Int) : Option MapRegion :=
  maps.foldl
    (fun next_map m =>
      if m.base > address then
        match next_map with
        | none => some m
        | some n => if m.base < n.base then some m else next_map
      else next_map)
    none

/-- `Memory.readByte(address)`. -/
def Mem.readByte (mem : Mem) (address : Int) : Except PyErr Int :=
  if address < 0 ∨ address > 0xffff then .error (.invalidAddress address)
  else
    match getMapFor mem.maps address with
    | some m => .ok (m.dev (address - m.base))
    | none => .ok (mem.ram address)

/-- `Memory.writeByte(address, value)`. -/
def Mem.writeByte (mem : Mem) (address : Int) (value : Int) : Except PyErr Mem :=
  if address < 0 ∨ address > 0xffff then .error (.invalidAddress address)
  else if value < 0 ∨ value > 0xff then .error (.valueOutOfRange value)
  else
    match getMapFor mem.maps address with
    | some m =>
        .ok { mem with devWrites := mem.devWrites ++ [(m.base, address - m.base, value)] }
    | none =>
        .ok { mem with ram := fun a => if a = address then value else mem.ram a }

/-- `Memory.readWord(address)`: `readByte(address) + (readByte(address+1) << 8)`. -/
def Mem.readWord (mem : Mem) (address : Int) : Except PyErr Int := do
  let lo ← mem.readByte address
  let hi ← mem.readByte (address + 1)
  pure (lo + hi * 256)

/-- Contents of the byte-array slice `memory[address:end]`. -/
def ramSlice (ram : Int → Int) (address e : Int) : List Int :=
  (List.range (e - address).toNat).map (fun (i : Nat) => ram (address + (i : Int)))

/-- Store a run of bytes at successive addresses (the slice assignment
`memory[address:end] = value`). -/
def ramWriteSeq (ram : Int → Int) (address : Int) : List Int → (Int → Int)
  | [] => ram
  | v :: rest => ramWriteSeq (fun a => if a = address then v else ram a) (address + 1) rest

/-- The loop body of `Memory.readBytes`: `while size:` walking the region list.
One fuel unit per iteration; `none` means the fuel ran out with the loop still
running. -/
def readBytesGo (mem : Mem) : Nat → Int → Int → List Int → Option (List Int)
  | fuel, address, size, data =>
    if size = 0 then some data
    else match fuel with
      | 0 => none
      | fuel + 1 =>
      match getMapFor mem.maps address with
      | some m =>
          let e := if address + size > m.last then m.last else address + size
          let chunk := (List.range (e - address).toNat).map
            (fun (i : Nat) => m.dev (address - m.base + (i : Int)))
          readBytesGo mem fuel e (size - (e - address)) (data ++ chunk)
      | none =>
          let nextStart :=
            match getNextMap mem.maps address with
            | some m => m.base
            | none => 0x10000
          let e := if address + size > nextStart then nextStart else address + size
          readBytesGo mem fuel e (size - (e - address)) (data ++ ramSlice mem.ram address e)

/-- `Memory.readBytes(address, size)`: bounds checks, then the region walk.
`.ok none` means the walk had not terminated within `fuel` iterations. -/
def Mem.readBytes (mem : Mem) (address size : Int) (fuel : Nat) :
    Except PyErr (Option (List Int)) :=
  if address < 0 then .error (.invalidAddress address)
  else if address + size > 0xffff then .error (.invalidAddress (address + size))
  else .ok (readBytesGo mem fuel address size [])

/-- The loop body of `Memory.writeBytes`. -/
def writeBytesGo : Nat → Mem → Int → List Int → Int → Option Mem
  | fuel, mem, address, value, size =>
    if size = 0 then some mem
    else match fuel with
      | 0 => none
      | fuel + 1 =>
      match getMapFor mem.maps address with
      | some m =>
          let e := if address + size > m.last then m.last else address + size
          let writes := (List.range (e - address).toNat).map
            (fun (i : Nat) => (m.base, address + (i : Int) - m.base, value.getD i 0))
          let mem' := { mem with devWrites := mem.devWrites ++ writes }
          writeBytesGo fuel mem' e (value.drop (e - address).toNat) (size - (e - address))
      | none =>
          let nextStart :=
            match getNextMap mem.maps address with
            | some m => m.base
            | none => 0x10000
          let e := if address + size > nextStart then nextStart else address + size
          let mem' := { mem with ram := ramWriteSeq mem.ram address (value.take (e - address).toNat) }
          writeBytesGo fuel mem' e (value.drop (e - address).toNat) (size - (e - address))

/-- `Memory.writeBytes(address, value)`: bounds checks, then the region walk. -/
def Mem.writeBytes (mem : Mem) (address : Int) (value : List Int) (fuel : Nat) :
    Except PyErr (Option Mem) :=
  let size : Int := value.length
  if address < 0 then .error (.invalidAddress address)
  else if address + size > 0xffff then .error (.invalidAddress (address + size))
  else .ok (writeBytesGo fuel mem address value size)

/-- Register bank (CPU/Registers.py): A, X, Y, PC, SP, next-PC and the seven
status flags. -/
structure RegisterBank where
  pc : Int
  sp : Int
  a : Int
  x : Int
  y : Int
  nextPC : Int
  carry : Bool
  zero : Bool
  int : Bool
  dec : Bool
  brk : Bool
  overflow : Bool
  negative : Bool
deriving DecidableEq, Repr

/-- `RegisterBank.__init__`: pc 0, sp 0xff, a/x/y 0, all flags clear. -/
def RegisterBank.new : RegisterBank :=
  { pc := 0, sp := 0xff, a := 0, x := 0, y := 0, nextPC := 0,
    carry := false, zero := false, int := false, dec := false,
    brk := false, overflow := false, negative := false }

/-- `RegisterBank.ps()`: pack the seven flags into a byte
(C=1, Z=2, I=4, D=8, B=16, V=64, N=128; bit 5 is never set). -/
def RegisterBank.ps (r : RegisterBank) : Nat :=
  (if r.carry then 1 else 0) |||
  (if r.zero then 2 else 0) |||
  (if r.int then 4 else 0) |||
  (if r.dec then 8 else 0) |||
  (if r.brk then 16 else 0) |||
  (if r.overflow then 64 else 0) |||
  (if r.negative then 128 else 0)

/-- `RegisterBank.setPS(value)`: unpack a byte into the seven flags
(bit 5 is ignored). -/
def RegisterBank.setPS (r : RegisterBank) (value : Nat) : RegisterBank :=
  { r with
    carry := value &&& 0x1 != 0
    zero := value &&& 0x2 != 0
    int := value &&& 0x4 != 0
    dec := value &&& 0x8 != 0
    brk := value &&& 0x10 != 0
    overflow := value &&& 0x40 != 0
    negative := value &&& 0x80 != 0 }

/-- State seen by the facade's run loop (`Pb` in PyBeebicorn.py): the program
counter and the `executing` flag.  The rest of the machine is abstracted into
the `tick` function a run is parametrised by (one `bbc.tick()` call executes
one instruction and may change any state, including clearing `executing` via
`emu_stop`). -/
structure EmuState where
  pc : Int
  executing : Bool
deriving DecidableEq, Repr

/-- The `while` loop of `Pb.emu_start`: run while `executing and pc != until`;
after each tick, `insts += 1` and `if count and insts >= count: break`.
`none` means the fuel ran out with the loop still running. -/
def emuLoop (tick : EmuState → EmuState) (untilAddr : Int) (count : Nat) :
    Nat → Nat → EmuState → Option EmuState
  | fuel, insts, s =>
    if s.executing ∧ s.pc ≠ untilAddr then
      match fuel with
      | 0 => none
      | fuel + 1 =>
        let s' := tick s
        let insts' := insts + 1
        if count ≠ 0 ∧ insts' ≥ count then some s'
        else emuLoop tick untilAddr count fuel insts' s'
    else some s

/-- `Pb.emu_start(begin, until, count=0)`: sets `executing`, runs the loop, and
clears `executing` in the `finally` block.  Note that, exactly as in the
source, the `beginAddr` parameter is never used by the body. -/
def emu_start (tick : EmuState → EmuState) (beginAddr untilAddr : Int) (count : Nat)
    (s : EmuState) (fuel : Nat) : Option EmuState :=
  (emuLoop tick untilAddr count fuel 0 { s with executing := true }).map
    (fun s' => { s' with executing := false })

/-- A registered hook (`PbHook` in PyBeebicorn.py): `address` is `begin`,
`last` is `end` (exclusive), and `PbHook.size = end - begin` is fixed at
construction.  `hid` stands in for Python object identity, so that two hooks
with the same range are still distinct values. -/
structure PbHook where
  hid : Nat
  address : Int
  last : Int
deriving DecidableEq, Repr

/-- `PbHook.size` as set in `__init__`: `end - begin`. -/
def PbHook.size (h : PbHook) : Int :=
  h.last - h.address

/-- `PbHook.__contains__(value)` applied to an integer address:
`value >= self.address and value < self.end`. -/
def PbHook.containsInt (h : PbHook) (value : Int) : Bool :=
  decide (value ≥ h.address ∧ value < h.last)

/-- CPython 2 mixed-type comparison of a tuple with an int, as exercised by
`(address, size) in hook` in `PbMemory.readBytes`/`writeBytes`: in Python 2,
objects of different non-numeric types order by type name, and numbers order
before every non-number, so `tuple >= int` is always `True`.  (Python 3
raises `TypeError` on the same comparison.) -/
def py2TupleGeInt (_ : Int × Int) (_ : Int) : Bool :=
  true

/-- CPython 2 comparison `tuple < int`: always `False` (see `py2TupleGeInt`). -/
def py2TupleLtInt (_ : Int × Int) (_ : Int) : Bool :=
  false

/-- `PbHook.__contains__(value)` applied to the tuple `(address, size)` that
`PbMemory.readBytes`/`writeBytes` pass to it:
`value >= self.address and value < self.end` under Python 2 semantics. -/
def PbHook.containsPair (h : PbHook) (value : Int × Int) : Bool :=
  py2TupleGeInt value h.address && py2TupleLtInt value h.last

/-- The hooks whose callbacks a `PbMemory.readBytes(address, size)` (or
`writeBytes`) call dispatches, in order: the `for hook in self.hook_read`
loop guarded by `if (address, size) in hook`. -/
def bulkHooksFired (hooks : List PbHook) (address size : Int) : List PbHook :=
  hooks.filter (fun h => h.containsPair (address, size))

/-- The per-kind hook bookkeeping of `PbMemory` (PyBeebicorn.py): the ordered
list (`hook_read` / `hook_write`) and the single-address dictionary
(`hook_simple_read` / `hook_simple_write`), the latter modelled as an
insertion-ordered association list exactly like a Python dict. -/
structure KindState where
  hooks : List PbHook
  simple : List (Int × PbHook)
deriving DecidableEq, Repr

/-- Python `dict.get(key)`. -/
def dictGet (d : List (Int × PbHook)) (k : Int) : Option PbHook :=
  (d.find? (fun p => p.1 == k)).map (fun p => p.2)

/-- Python `dict[key] = value`: overwrite in place if the key is present,
otherwise append (insertion order). -/
def dictSet (d : List (Int × PbHook)) (k : Int) (h : PbHook) : List (Int × PbHook) :=
  if d.any (fun p => p.1 == k) then d.map (fun p => if p.1 == k then (k, h) else p)
  else d ++ [(k, h)]

/-- Python `del dict[key]`. -/
def dictDel (d : List (Int × PbHook)) (k : Int) : List (Int × PbHook) :=
  d.filter (fun p => p.1 != k)

/-- The read-kind half of `PbMemory.hook_add` (the write-kind half is the same
code on the write-kind fields): maintain the simple dictionary while every
hook is a unit range at a fresh address, otherwise discard it; always append
to the ordered list. -/
def kindAdd (s : KindState) (hook : PbHook) : KindState :=
  let simple :=
    if s.hooks = [] ∨ s.simple ≠ [] then
      if hook.size = 1 ∧ (dictGet s.simple hook.address).isNone then
        dictSet s.simple hook.address hook
      else []
    else s.simple
  { hooks := s.hooks ++ [hook], simple := simple }

/-- The read-kind half of `PbMemory.hook_del`: if the hook is registered,
remove it from the list and drop its address from the simple dictionary. -/
def kindDel (s : KindState) (hook : PbHook) : KindState :=
  if hook ∈ s.hooks then
    { hooks := s.hooks.erase hook,
      simple := if s.simple.any (fun p => p.1 == hook.address) then dictDel s.simple hook.address
                else s.simple }
  else s

/-- Hook states reachable from the freshly constructed `PbMemory` (both
containers empty) by any sequence of `hook_add` / `hook_del` calls. -/
inductive Reach : KindState → Prop
  | init : Reach ⟨[], []⟩
  | add (hook : PbHook) {s : KindState} : Reach s → Reach (kindAdd s hook)
  | del (hook : PbHook) {s : KindState} : Reach s → Reach (kindDel s hook)

/-- The hooks whose callbacks `PbMemory.readByte(address)` dispatches: the
fast path through the simple dictionary when it is non-empty, else the linear
scan over the ordered list. -/
def firedFast (s : KindState) (address : Int) : List PbHook :=
  if s.hooks = [] then []
  else if s.simple ≠ [] then
    match dictGet s.simple address with
    | some h => [h]
    | none => []
  else s.hooks.filter (fun h => h.containsInt address)

/-- The hooks a plain linear scan of the ordered list would dispatch for a
single-byte access. -/
def firedScan (s : KindState) (address : Int) : List PbHook :=
  s.hooks.filter (fun h => h.containsInt address)

/-- The invariant maintained by `hook_add`/`hook_del`: whenever the simple
dictionary is non-empty it is exactly the ordered hook list keyed by address,
every registered hook has a unit range, and the addresses are pairwise
distinct. -/
def SimpleInv (s : KindState) : Prop :=
  s.simple ≠ [] →
    s.simple = s.hooks.map (fun h => (h.address, h)) ∧
    (∀ h ∈ s.hooks, h.size = 1) ∧
    s.hooks.Pairwise (fun h g => h.address ≠ g.address)

/-- State manipulated by the host-level MOS helpers (MOS.py): the stack
pointer attribute `regs.sp` (a plain Python int, so it can transiently leave
0..0xFF) and the memory. -/
structure MOSState where
  sp : Int
  mem : Mem

/-- Errors raised by the MOS stack helpers. -/
inductive StackErr where
  | overflow
  | underflow
  | pyErr (e : PyErr)
deriving DecidableEq, Repr

/-- `MOS.push_byte(value)`: write at `sp + 0x100`, decrement `sp`, raise
`StackOverflowException` if `sp` went below zero. -/
def push_byte (s : MOSState) (value : Int) : Except StackErr MOSState :=
  match s.mem.writeByte (s.sp + 0x100) value with
  | .error e => .error (.pyErr e)
  | .ok mem' =>
      let sp' := s.sp - 1
      if sp' < 0 then .error .overflow
      else .ok { sp := sp', mem := mem' }

/-- `MOS.pull_byte()`: increment `sp`, raise `StackUnderflowException` if it
went above 0xFF, then read at `sp + 0x100`. -/
def pull_byte (s : MOSState) : Except StackErr (Int × MOSState) :=
  let sp' := s.sp + 1
  if sp' > 0xff then .error .underflow
  else
    match s.mem.readByte (sp' + 0x100) with
    | .error e => .error (.pyErr e)
    | .ok b => .ok (b, { s with sp := sp' })

/-- Full facade state for the host trap layer: the register bank and memory
of the `Pb` object. -/
structure PbState where
  regs : RegisterBank
  mem : Mem

/-- Modelled from the spec: the stack pull primitive of the ExecutionUnit
(CPU/ExecutionUnit.py is not in the source tree; only its caller
`Dispatcher.pullByte` is).  Spec 4.3: "pull increments SP then reads" at
`0x100 + SP`, with SP wrapping; the read is from the hardware stack page,
always in range, so a memory error cannot occur (`0` stands for the
unreachable error branch). -/
def euPullByte (s : PbState) : Int × PbState :=
  let sp' := (s.regs.sp + 1) % 256
  let b :=
    match s.mem.readByte (sp' + 0x100) with
    | .ok b => b
    | .error _ => 0
  (b, { s with regs := { s.regs with sp := sp' } })

/-- Modelled from the spec: the ExecutionUnit's 16-bit pull used by
`Dispatcher.pullWord` (CPU/ExecutionUnit.py missing from the source tree).
Spec 4.3: "RTS pulls two bytes and sets next-PC to pulled-word + 1" with the
stack holding the word high byte then low byte, so the low byte is pulled
first; the combination mirrors `MOS.pull_word`: `lw + (hw << 8)`. -/
def euPullWord (s : PbState) : Int × PbState :=
  let (lw, s1) := euPullByte s
  let (hw, s2) := euPullByte s1
  (lw + hw * 256, s2)

/-- Outcome of a host trap handler (`OSInterface.call`): it returns a handled
flag or raises `BBCError(errnum, errmess)`. -/
inductive TrapResult where
  | handled
  | notHandled
  | bbcError (num : Int) (msg : List Int)

/-- The `hook` closure installed by `main` in PyBeebU.py around each OS
interface: on `handled` it pulls a word from the guest stack and sets
`pc` to that word plus one; on `BBCError` it writes `[0, errnum]` at 0x100,
the message bytes at 0x102, and jumps `pc` to 0x100 without re-raising.
`.ok none` means a bulk write ran out of fuel. -/
def trapHook (res : TrapResult) (s : PbState) : Except PyErr (Option PbState) :=
  match res with
  | .handled =>
      let (w, s1) := euPullWord s
      .ok (some { s1 with regs := { s1.regs with pc := w + 1 } })
  | .notHandled => .ok (some s)
  | .bbcError num msg =>
      match s.mem.writeBytes 0x100 [0, num] 3 with
      | .error e => .error e
      | .ok none => .ok none
      | .ok (some m1) =>
          match m1.writeBytes (0x100 + 2) msg (msg.length + 1) with
          | .error e => .error e
          | .ok none => .ok none
          | .ok (some m2) =>
              .ok (some { regs := { s.regs with pc := 0x100 }, mem := m2 })

/-- Python slice `l[:k]` for an int `k` that may be negative. -/
def pySliceTo (l : List Int) (k : Int) : List Int :=
  if k < 0 then l.take (l.length - (-k).toNat) else l.take k.toNat

/-- State manipulated by the OSWORD 0 trap of Host/host.py (and the identical
copy in PyBeebU.py): the register bank, the memory, and `Yattr`, which models
the Python instance attribute `Y` that the assignment `regs.Y = len(result)`
creates on the register bank object.  `RegisterBank` (CPU/Registers.py) has
no attribute named `Y`; its Y register is the lower-case `y` field, so the
assignment makes a new attribute instead of writing the register.  `Yattr`
is `none` until that assignment happens. -/
structure OswordState where
  regs : RegisterBank
  yAttr : Option Int
  mem : Mem

/-- `OSWORDtty.osword_readline` from Host/host.py (lines 60..97; PyBeebU.py
has the same code): read the control block (buffer address, max length,
min/max ASCII), truncate the host input line to `maxline - 1` characters,
append the carriage return, clear carry, assign the length to `regs.Y`
(which creates a fresh attribute, see `OswordState.yAttr`), and write the
bytes at the buffer address.  `line` is the string returned by `read_line()`
(the typed line without its terminator); `.ok none` means the bulk write ran
out of fuel. -/
def osword_readline_host (line : List Int) (address : Int) (s : OswordState) :
    Except PyErr (Option OswordState) := do
  let input_memory ← s.mem.readWord address
  let maxline ← s.mem.readByte (address + 2)
  let _lowest ← s.mem.readByte (address + 3)
  let _highest ← s.mem.readByte (address + 4)
  let result := pySliceTo line (maxline - 1) ++ [0x0D]
  let regs' := { s.regs with carry := false }
  let yAttr' := some (result.length : Int)
  match s.mem.writeBytes input_memory result (result.length + 1) with
  | .error e => .error e
  | .ok none => .ok none
  | .ok (some m') => .ok (some { regs := regs', yAttr := yAttr', mem := m' })

/-- `OSWORDtty.osword_readline` from Host/hosttty.py (lines 105..142): the
same algorithm, except that the length is assigned to `regs.y`, the actual
Y register. -/
def osword_readline_tty (line : List Int) (address : Int) (s : OswordState) :
    Except PyErr (Option OswordState) := do
  let input_memory ← s.mem.readWord address
  let maxline ← s.mem.readByte (address + 2)
  let _lowest ← s.mem.readByte (address + 3)
  let _highest ← s.mem.readByte (address + 4)
  let result := pySliceTo line (maxline - 1) ++ [0x0D]
  let regs' := { s.regs with carry := false, y := (result.length : Int) }
  match s.mem.writeBytes input_memory result (result.length + 1) with
  | .error e => .error e
  | .ok none => .ok none
  | .ok (some m') => .ok (some { regs := regs', yAttr := s.yAttr, mem := m' })

/-- The spec's boundary-scenario device: a region-local offset reads back as
`offset + 1`. -/
def devInc : Int → Int := fun off => off + 1

/-- The spec's boundary-scenario memory: one region mapped over
0x2000..0x2003 (inclusive, as `Memory.map` stores it) backed by `devInc`,
plain RAM (all zero bytes) elsewhere. -/
def memRegion : Mem :=
  { ram := fun _ => 0, maps := [⟨0x2000, 0x2003, devInc⟩], devWrites := [] }

/-- Memory with no mapping regions and zeroed RAM. -/
def memPlain : Mem :=
  { ram := fun _ => 0, maps := [], devWrites := [] }

/-- RAM for the OSWRCH trap scenario: the guest stack holds the return
address 0x1234 pushed high byte then low byte (0x12 at 0x01FF, 0x34 at
0x01FE). -/
def ramTrap : Int → Int := fun a =>
  if a = 0x1FE then 0x34 else if a = 0x1FF then 0x12 else 0

/-- Facade state for the OSWRCH trap scenario: SP = 0xFD (two bytes pushed),
no mapping regions. -/
def sTrap : PbState :=
  { regs := { RegisterBank.new with sp := 0xFD }, mem := { ram := ramTrap, maps := [], devWrites := [] } }

/-- RAM for the readline scenario: an OSWORD 0 control block at 0x7000 with
buffer address 0x0800, maximum line length 8, ASCII bounds 32..255. -/
def ramReadline : Int → Int := fun a =>
  if a = 0x7000 then 0x00 else if a = 0x7001 then 0x08 else if a = 0x7002 then 8
  else if a = 0x7003 then 32 else if a = 0x7004 then 255 else 0

/-- Trap-layer state for the readline scenario: block address passed in X/Y
(X=0x00, Y=0x70), so the register bank's `y` starts at 0x70. -/
def sReadline : OswordState :=
  { regs := { RegisterBank.new with y := 0x70 }, yAttr := none,
    mem := { ram := ramReadline, maps := [], devWrites := [] } }

/-- The ASCII bytes of the typed line "HELLO" (what `read_line()` returns:
the terminator is not included). -/
def lineHELLO : List Int := [72, 69, 76, 76, 79]

/-- A tick that advances PC by one; used to observe the facade run loop. -/
def tickInc : EmuState → EmuState := fun s => { s with pc := s.pc + 1 }

/-- A read hook over 0x2000..0x2003 (registered as `begin=0x2000`,
`end=0x2004`), intersecting the bulk read of the boundary scenario. -/
def hookBulk : PbHook := ⟨1, 0x2000, 0x2004⟩

/-- A unit-range hook at address 5. -/
def hookUnit5 : PbHook := ⟨1, 5, 6⟩

/-- The hook state after registering `hookUnit5` on a fresh `PbMemory`. -/
def stateUnit5 : KindState := kindAdd ⟨[], []⟩ hookUnit5

theorem setPS_ps_irrel (r : RegisterBank) (v : Nat) :
    (r.setPS v).ps = (RegisterBank.new.setPS v).ps :=
  rfl

set_option maxRecDepth 8000 in
/-- Claim C9: for every byte v, unpacking v into the seven status flags and
packing them back yields `v & 0b11011111`: bit 5 (unused) is forced to 0 and
every other bit, including bit 4 (B), is preserved. -/
theorem C9_ps_setPS_roundtrip (r : RegisterBank) (v : Nat) (hv : v < 256) :
    (r.setPS v).ps = v &&& 0xDF := by
  rw [setPS_ps_irrel]
  revert v
  decide

/-- Witness for C9 at v = 0xAB (bit 5 set, B bit set): the round trip returns
0xAB with bit 5 cleared. -/
theorem C9_ps_setPS_roundtrip_witness :
    (0xAB : Nat) < 256 ∧ (RegisterBank.new.setPS 0xAB).ps = 0xAB &&& 0xDF :=
  ⟨by decide, C9_ps_setPS_roundtrip RegisterBank.new 0xAB (by decide)⟩

/-- Claim C3: contrary to the claim, `emu_start(begin, until, count)` never
assigns `begin` to PC — the run is identical for any two values of `begin`,
and with PC initially 0x1000, begin 0x2000, until 0x3000 and count 1 the
single executed tick runs from 0x1000, leaving PC at 0x1001 (the claim
predicts 0x2001), with the executing flag cleared on return. -/
theorem C3_emu_start_ignores_begin :
    (∀ (tick : EmuState → EmuState) (b1 b2 untilAddr : Int) (count : Nat)
        (s : EmuState) (fuel : Nat),
        emu_start tick b1 untilAddr count s fuel = emu_start tick b2 untilAddr count s fuel) ∧
    emu_start tickInc 0x2000 0x3000 1 ⟨0x1000, false⟩ 10 = some ⟨0x1001, false⟩ :=
  ⟨fun _ _ _ _ _ _ _ => rfl, by decide⟩

/-- Claim C4: contrary to the claim, the bulk-transfer hook dispatch of
`PbMemory.readBytes`/`writeBytes` never invokes any hook: the membership test
passes the tuple `(address, size)` to `PbHook.__contains__`, whose Python 2
tuple-versus-int comparison is constant false.  The hook over 0x2000..0x2003
does contain address 0x2000 of the bulk read `readBytes(0x1FFE, 8)` under the
single-address membership test, yet the set of hooks fired by the bulk read
is empty — for every hook list and every request. -/
theorem C4_bulk_hooks_never_fire :
    hookBulk.containsInt 0x2000 = true ∧
    bulkHooksFired [hookBulk] 0x1FFE 8 = [] ∧
    ∀ (hooks : List PbHook) (address size : Int), bulkHooksFired hooks address size = [] := by
  refine ⟨by decide, rfl, ?_⟩
  intro hooks address size
  induction hooks with
  | nil => rfl
  | cons h t ih =>
      simpa [bulkHooksFired, PbHook.containsPair, py2TupleGeInt, py2TupleLtInt,
             List.filter_cons] using ih

/-- Claim C7: contrary to the claim, a bulk operation whose range ends
exactly at address 0xFFFF fails: `readBytes(0xFFFF, 1)` (and the matching
one-byte write) raises `InvalidAddress(0x10000)` because the guard rejects
`address + size > 0xffff`, although the single-byte `readByte(0xFFFF)`
succeeds; a one-byte bulk read at 0xFFFE still succeeds. -/
theorem C7_top_byte_bulk_fails :
    (∀ fuel, memPlain.readBytes 0xFFFF 1 fuel = .error (.invalidAddress 0x10000)) ∧
    (∀ fuel, memPlain.writeBytes 0xFFFF [0x41] fuel = .error (.invalidAddress 0x10000)) ∧
    memPlain.readByte 0xFFFF = .ok 0 ∧
    (∀ fuel, memPlain.readBytes 0xFFFE 1 (fuel + 1) = .ok (some [0])) := by
  refine ⟨fun fuel => rfl, fun fuel => rfl, rfl, fun fuel => ?_⟩
  cases fuel with
  | zero => rfl
  | succ n => rfl

theorem readBytesGo_region_stuck (fuel : Nat) (size : Int) (data : List Int) (h : 0 < size) :
    readBytesGo memRegion fuel 0x2003 size data = none := by
  induction fuel generalizing data with
  | zero =>
      simp only [readBytesGo]
      rw [if_neg (by omega)]
  | succ n ih =>
      have hmap : getMapFor memRegion.maps 0x2003 = some ⟨0x2000, 0x2003, devInc⟩ := rfl
      have hgt : (0x2003 : Int) + size > 0x2003 := by omega
      simp only [readBytesGo, hmap]
      rw [if_neg (by omega), if_pos hgt]
      simp only [sub_self, Int.toNat_zero, List.range_zero, List.map_nil, List.append_nil,
                 sub_zero]
      exact ih data

/-- Claim C2: contrary to the claim, the region walk of `readBytes` does not
terminate when the request starts at the last address of a mapped region:
with the region mapped over 0x2000..0x2003, `readBytes(0x2003, 1)` clips the
iteration end to `map.end()` = 0x2003 = address, makes no progress, and loops
forever — for every fuel bound the loop is still running. -/
theorem C2_readBytes_region_end_loops :
    ∀ fuel, memRegion.readBytes 0x2003 1 fuel = .ok none := by
  intro fuel
  have h : readBytesGo memRegion fuel 0x2003 1 [] = none :=
    readBytesGo_region_stuck fuel 1 [] (by omega)
  simp only [Mem.readBytes]
  rw [if_neg (by omega), if_neg (by omega), h]

/-- Claim C1: contrary to the claim, the spec's own boundary scenario
diverges: with a device mapped over 0x2000..0x2003 returning offset+1 and
plain RAM elsewhere, `readBytes(0x1FFE, 8)` reads RAM[0x1FFE], RAM[0x1FFF],
then device bytes 1, 2, 3, and then loops forever with address stuck at
0x2003 (the inclusive `map.end()` used as an exclusive bound), never
returning the 8 bytes the claim describes — for every fuel bound the loop is
still running. -/
theorem C1_readBytes_boundary_scenario_diverges :
    ∀ fuel, memRegion.readBytes 0x1FFE 8 fuel = .ok none := by
  intro fuel
  have h : readBytesGo memRegion fuel 0x1FFE 8 [] = none := by
    match fuel with
    | 0 => rfl
    | 1 => rfl
    | (n + 2) =>
        have hstep : readBytesGo memRegion (n + 2) 0x1FFE 8 [] =
            readBytesGo memRegion n 0x2003 3 [0, 0, 1, 2, 3] := rfl
        rw [hstep]
        exact readBytesGo_region_stuck n 3 [0, 0, 1, 2, 3] (by omega)
  simp only [Mem.readBytes]
  rw [if_neg (by omega), if_neg (by omega), h]

theorem ramWriteSeq_out (vs : List Int) (ram : Int → Int) (a x : Int)
    (h : x < a ∨ a + vs.length ≤ x) : ramWriteSeq ram a vs x = ram x := by
  induction vs generalizing ram a with
  | nil => rfl
  | cons v rest ih =>
      simp only [ramWriteSeq]
      rw [ih]
      · rw [if_neg (by simp only [List.length_cons] at h; push_cast at h; omega)]
      · simp only [List.length_cons] at h
        push_cast at h ⊢
        omega

theorem ramWriteSeq_get (vs : List Int) (ram : Int → Int) (a : Int) (i : Nat)
    (h : i < vs.length) : ramWriteSeq ram a vs (a + (i : Int)) = vs.getD i 0 := by
  induction vs generalizing ram a i with
  | nil => simp at h
  | cons v rest ih =>
      cases i with
      | zero =>
          simp only [ramWriteSeq]
          rw [ramWriteSeq_out]
          · simp
          · left
            push_cast
            omega
      | succ j =>
          simp only [ramWriteSeq]
          have hx : a + ((j + 1 : Nat) : Int) = (a + 1) + (j : Int) := by push_cast; omega
          rw [hx, ih]
          · simp
          · simp only [List.length_cons] at h
            omega

theorem readByte_nomap (mem : Mem) (hm : mem.maps = []) (a : Int)
    (h0 : 0 ≤ a) (h1 : a ≤ 0xffff) : mem.readByte a = .ok (mem.ram a) := by
  simp only [Mem.readByte, hm]
  rw [if_neg (by omega)]
  rfl

theorem writeBytes_nomap (mem : Mem) (hm : mem.maps = []) (a : Int) (vs : List Int)
    (fuel : Nat) (hf : 1 ≤ fuel) (h0 : 0 ≤ a) (h1 : a + vs.length ≤ 0xffff) :
    mem.writeBytes a vs fuel = .ok (some { mem with ram := ramWriteSeq mem.ram a vs }) := by
  obtain ⟨ram, maps, dw⟩ := mem
  simp only at hm h1 ⊢
  subst hm
  obtain ⟨f, rfl⟩ : ∃ f, fuel = f + 1 := ⟨fuel - 1, by omega⟩
  simp only [Mem.writeBytes]
  rw [if_neg (by omega), if_neg (by omega)]
  rcases eq_or_ne vs [] with rfl | hvs
  · rfl
  · have hlen0 : ((vs.length : Int)) ≠ 0 := by
      simp only [ne_eq, Int.natCast_eq_zero, List.length_eq_zero]
      exact hvs
    simp only [writeBytesGo]
    rw [if_neg hlen0]
    have hmap : getMapFor ([] : List MapRegion) a = none := rfl
    have hnext : getNextMap ([] : List MapRegion) a = none := rfl
    simp only [hmap, hnext]
    rw [if_neg (by omega)]
    simp only [add_sub_cancel_left, Int.toNat_natCast, List.take_length, List.drop_length,
               sub_self]
    conv_lhs => rw [writeBytesGo.eq_def]
    norm_num

set_option maxRecDepth 8000 in
/-- Claim C5: the trap-hook closure of PyBeebU.main.  When the handler
reports handled, the facade pulls the 16-bit return address from the guest
stack (low byte from 0x100+SP+1, high byte next, as pushed high-then-low)
and sets PC to that address + 1: with SP=0xFD and 0x1234 on the stack the
new PC is 0x1235 and SP is 0xFF.  When the handler raises BBCError(num,msg),
the facade writes a zero byte at 0x0100, the error number at 0x0101 and the
message from 0x0102 on, sets PC to 0x0100, and returns normally instead of
propagating the exception. -/
theorem C5_trap_hook_rts_and_bbcerror (s : PbState) (num : Int) (msg : List Int)
    (hmaps : s.mem.maps = [])
    (hsp : s.regs.sp = 0xFD)
    (hlo : s.mem.ram 0x1FE = 0x34)
    (hhi : s.mem.ram 0x1FF = 0x12)
    (hlen : 0x102 + (msg.length : Int) ≤ 0xffff) :
    trapHook .handled s =
      .ok (some { s with regs := { s.regs with sp := 0xFF, pc := 0x1235 } }) ∧
    ∃ m2, trapHook (.bbcError num msg) s =
        .ok (some { regs := { s.regs with pc := 0x100 }, mem := m2 }) ∧
      m2.ram 0x100 = 0 ∧ m2.ram 0x101 = num ∧
      ∀ i : Nat, i < msg.length → m2.ram (0x102 + (i : Int)) = msg.getD i 0 := by
  constructor
  · simp only [trapHook, euPullWord, euPullByte, hsp]
    norm_num
    rw [readByte_nomap _ hmaps _ (by omega) (by omega),
        readByte_nomap _ hmaps _ (by omega) (by omega)]
    simp only [hlo, hhi]
    norm_num
  · simp only [trapHook]
    rw [writeBytes_nomap _ hmaps _ _ _ (by omega) (by omega) (by norm_num)]
    dsimp only
    rw [writeBytes_nomap _ (by exact hmaps) _ _ _ (by omega) (by omega) (by push_cast at hlen ⊢; omega)]
    dsimp only
    refine ⟨_, rfl, ?_, ?_, ?_⟩
    · dsimp only
      rw [ramWriteSeq_out msg _ _ _ (by left; norm_num)]
      simpa using ramWriteSeq_get [0, num] s.mem.ram 0x100 0 (by simp)
    · dsimp only
      rw [ramWriteSeq_out msg _ _ _ (by left; norm_num)]
      simpa using ramWriteSeq_get [0, num] s.mem.ram 0x100 1 (by simp)
    · intro i hi
      dsimp only
      have h : (0x102 : Int) + (i : Int) = 0x100 + 2 + (i : Int) := by norm_num
      rw [h]
      exact ramWriteSeq_get msg _ _ i hi

/-- Witness for C5 at the spec's OSWRCH scenario state (SP=0xFD, stack
holding 0x1234) with BBCError 214 and message "AB". -/
theorem C5_trap_hook_witness :
    sTrap.mem.maps = [] ∧ sTrap.regs.sp = 0xFD ∧
    sTrap.mem.ram 0x1FE = 0x34 ∧ sTrap.mem.ram 0x1FF = 0x12 ∧
    0x102 + (([65, 66] : List Int).length : Int) ≤ 0xffff ∧
    (trapHook .handled sTrap =
        .ok (some { sTrap with regs := { sTrap.regs with sp := 0xFF, pc := 0x1235 } }) ∧
      ∃ m2, trapHook (.bbcError 214 [65, 66]) sTrap =
          .ok (some { regs := { sTrap.regs with pc := 0x100 }, mem := m2 }) ∧
        m2.ram 0x100 = 0 ∧ m2.ram 0x101 = 214 ∧
        ∀ i : Nat, i < ([65, 66] : List Int).length →
          m2.ram (0x102 + (i : Int)) = ([65, 66] : List Int).getD i 0) :=
  ⟨rfl, rfl, rfl, rfl, by decide,
    C5_trap_hook_rts_and_bbcerror sTrap 214 [65, 66] rfl rfl rfl rfl (by decide)⟩

/-- Claim C6: contrary to the claim, the OSWORD 0 readline trap of
Host/host.py (and PyBeebU.py) does not set the Y register.  On the spec's
scenario (control block at 0x7000 pointing at buffer 0x0800, max length 8,
typed line "HELLO", Y initially 0x70 from the block address high byte) it
stores "HELLO" plus the carriage return at 0x0800 and clears carry, but the
length 6 is assigned to a fresh attribute `regs.Y`, leaving the Y register
`regs.y` at 0x70.  The revision in Host/hosttty.py assigns `regs.y` and does
set Y to 6. -/
theorem C6_readline_host_y_register_unchanged :
    (∃ s', osword_readline_host lineHELLO 0x7000 sReadline = .ok (some s') ∧
      s'.regs.y = 0x70 ∧ s'.yAttr = some 6 ∧ s'.regs.carry = false ∧
      (List.range 6).map (fun (i : Nat) => s'.mem.ram (0x800 + (i : Int))) =
        [72, 69, 76, 76, 79, 0x0D]) ∧
    (∃ t', osword_readline_tty lineHELLO 0x7000 sReadline = .ok (some t') ∧
      t'.regs.y = 6 ∧ t'.regs.carry = false) := by
  constructor
  · exact ⟨_, rfl, rfl, rfl, rfl, by decide⟩
  · exact ⟨_, rfl, rfl, rfl⟩

/-- Counterexample for C8: the MOS stack helpers fail at the boundaries
instead of wrapping: a push with SP = 0x00 raises StackOverflowException
(it does not continue at SP 0xFF), and a pull with SP = 0xFF raises
StackUnderflowException (it does not continue at SP 0x00). -/
theorem C8_counterexample_no_wrap :
    push_byte ⟨0, memPlain⟩ 0x42 = .error .overflow ∧
    pull_byte ⟨0xFF, memPlain⟩ = .error .underflow :=
  ⟨rfl, rfl⟩

/-- Claim C8 (amended): for SP in 0x01..0xFF and any byte value, pushing and
then pulling returns the pushed value and restores SP; at the boundaries the
helpers raise StackOverflow/StackUnderflow instead of wrapping (see the
counterexample). -/
theorem C8_push_pull_roundtrip (mem : Mem) (sp v : Int) (hm : mem.maps = [])
    (h1 : 1 ≤ sp) (h2 : sp ≤ 0xff) (h3 : 0 ≤ v) (h4 : v ≤ 0xff) :
    ∃ mem', push_byte ⟨sp, mem⟩ v = .ok ⟨sp - 1, mem'⟩ ∧
      pull_byte ⟨sp - 1, mem'⟩ = .ok (v, ⟨sp, mem'⟩) := by
  obtain ⟨ram, maps, dw⟩ := mem
  simp only at hm
  subst hm
  refine ⟨{ ram := fun a => if a = sp + 0x100 then v else ram a, maps := [], devWrites := dw },
          ?_, ?_⟩
  · simp only [push_byte, Mem.writeByte]
    rw [if_neg (by omega), if_neg (by omega)]
    have hmap : getMapFor ([] : List MapRegion) (sp + 0x100) = none := rfl
    simp only [hmap]
    rw [if_neg (by omega)]
  · simp only [pull_byte]
    rw [show sp - 1 + 1 = sp from by omega]
    rw [if_neg (by omega)]
    simp only [Mem.readByte]
    rw [if_neg (by omega)]
    have hmap : getMapFor ([] : List MapRegion) (sp + 0x100) = none := rfl
    simp only [hmap]
    simp

/-- Witness for the amended C8 at SP = 0xFF, value 0x42. -/
theorem C8_push_pull_witness :
    memPlain.maps = [] ∧ (1 : Int) ≤ 0xff ∧ (0xff : Int) ≤ 0xff ∧
    (0 : Int) ≤ 0x42 ∧ (0x42 : Int) ≤ 0xff ∧
    ∃ mem', push_byte ⟨0xff, memPlain⟩ 0x42 = .ok ⟨0xff - 1, mem'⟩ ∧
      pull_byte ⟨0xff - 1, mem'⟩ = .ok (0x42, ⟨0xff, mem'⟩) :=
  ⟨rfl, by decide, by decide, by decide, by decide,
    C8_push_pull_roundtrip memPlain 0xff 0x42 rfl (by decide) (by decide) (by decide)
      (by decide)⟩

theorem dictGet_map_none (l : List PbHook) (addr : Int) :
    dictGet (l.map (fun h => (h.address, h))) addr = none ↔ ∀ g ∈ l, g.address ≠ addr := by
  simp [dictGet, Option.map_eq_none', List.find?_eq_none]

theorem filter_ne_key (l : List PbHook) (addr : Int) (hall : ∀ g ∈ l, g.address ≠ addr) :
    (l.map (fun h => (h.address, h))).filter (fun p => p.1 != addr) =
      l.map (fun h => (h.address, h)) := by
  rw [List.filter_eq_self]
  intro p hp
  simp only [List.mem_map] at hp
  obtain ⟨g, hg, rfl⟩ := hp
  simpa using hall g hg

theorem erase_map_filter (l : List PbHook) (hook : PbHook)
    (hpair : l.Pairwise (fun h g => h.address ≠ g.address)) (hmem : hook ∈ l) :
    (l.erase hook).map (fun h => (h.address, h)) =
      (l.map (fun h => (h.address, h))).filter (fun p => p.1 != hook.address) := by
  induction l with
  | nil => simp at hmem
  | cons g t ih =>
      rw [List.pairwise_cons] at hpair
      obtain ⟨hg, hpt⟩ := hpair
      by_cases hEq : g = hook
      · subst hEq
        rw [List.erase_cons_head, List.map_cons, List.filter_cons]
        rw [if_neg (by simp)]
        rw [filter_ne_key t g.address (fun x hx => (hg x hx).symm)]
      · have hmemt : hook ∈ t := by
          rcases List.mem_cons.1 hmem with h | h
          · exact absurd h.symm hEq
          · exact h
        have hne : g.address ≠ hook.address := hg hook hmemt
        rw [List.erase_cons_tail, List.map_cons, List.map_cons, List.filter_cons]
        · rw [if_pos (by simpa using hne)]
          rw [ih hpt hmemt]
        · simpa using fun h => hEq h

theorem filter_containsInt_eq_nil (t : List PbHook) (addr : Int)
    (hsz : ∀ h ∈ t, PbHook.size h = 1) (hne : ∀ h ∈ t, h.address ≠ addr) :
    t.filter (fun h => h.containsInt addr) = [] := by
  rw [List.filter_eq_nil]
  intro h hh
  have h1 := hsz h hh
  have h2 := hne h hh
  simp only [PbHook.size] at h1
  simp only [PbHook.containsInt, decide_eq_true_eq, not_and, not_lt, ge_iff_le]
  omega

theorem dictGet_eq_filter (l : List PbHook) (addr : Int)
    (hsz : ∀ h ∈ l, PbHook.size h = 1)
    (hpair : l.Pairwise (fun h g => h.address ≠ g.address)) :
    (match dictGet (l.map (fun h => (h.address, h))) addr with
      | some h => [h]
      | none => []) = l.filter (fun h => h.containsInt addr) := by
  induction l with
  | nil => rfl
  | cons g t ih =>
      rw [List.pairwise_cons] at hpair
      obtain ⟨hg, hpt⟩ := hpair
      have hszg : PbHook.size g = 1 := hsz g (by simp)
      simp only [PbHook.size] at hszg
      rw [List.map_cons, List.filter_cons]
      by_cases hEq : g.address = addr
      · have hfind : dictGet ((g.address, g) :: t.map (fun h => (h.address, h))) addr = some g := by
          simp [dictGet, List.find?_cons, hEq]
        rw [hfind]
        rw [if_pos (by simp only [PbHook.containsInt, decide_eq_true_eq]; omega)]
        rw [filter_containsInt_eq_nil t addr (fun h hh => hsz h (by simp [hh]))
              (fun h hh => by have := hg h hh; omega)]
      · have hfind : dictGet ((g.address, g) :: t.map (fun h => (h.address, h))) addr =
            dictGet (t.map (fun h => (h.address, h))) addr := by
          simp [dictGet, List.find?_cons, hEq]
        rw [hfind]
        rw [if_neg (by simp only [PbHook.containsInt, decide_eq_true_eq]; omega)]
        exact ih (fun h hh => hsz h (by simp [hh])) hpt

theorem reach_simpleInv {s : KindState} (h : Reach s) : SimpleInv s := by
  induction h with
  | init => intro hne; exact absurd rfl hne
  | add hook _ ih =>
      rename_i t hstep
      intro hne
      unfold kindAdd at hne ⊢
      dsimp only at hne ⊢
      by_cases hc : t.hooks = [] ∨ t.simple ≠ []
      · rw [if_pos hc] at hne ⊢
        by_cases hs : hook.size = 1 ∧ (dictGet t.simple hook.address).isNone
        · rw [if_pos hs] at hne ⊢
          by_cases hsimp : t.simple = []
          · have hhooks : t.hooks = [] := by
              rcases hc with h | h
              · exact h
              · exact absurd hsimp h
            rw [hsimp, hhooks]
            refine ⟨by simp [dictSet], ?_, ?_⟩
            · intro h hh
              simp only [List.nil_append, List.mem_singleton] at hh
              subst hh
              exact hs.1
            · simp
          · obtain ⟨hmap, hsz, hpair⟩ := ih hsimp
            have hgetnone : dictGet t.simple hook.address = none :=
              Option.isNone_iff_eq_none.1 hs.2
            have hget : ∀ g ∈ t.hooks, g.address ≠ hook.address := by
              rw [hmap] at hgetnone
              exact (dictGet_map_none _ _).1 hgetnone
            have hany : ¬ t.simple.any (fun p => p.1 == hook.address) = true := by
              rw [hmap]
              simp only [List.any_eq_true, List.mem_map, not_exists, not_and]
              rintro p ⟨g, hgmem, rfl⟩
              simpa using hget g hgmem
            have hset : dictSet t.simple hook.address hook =
                t.simple ++ [(hook.address, hook)] := by
              rw [dictSet, if_neg hany]
            rw [hset, hmap]
            refine ⟨by simp, ?_, ?_⟩
            · intro h hh
              rcases List.mem_append.1 hh with h1 | h1
              · exact hsz h h1
              · simp only [List.mem_singleton] at h1
                subst h1
                exact hs.1
            · rw [List.pairwise_append]
              refine ⟨hpair, by simp, ?_⟩
              intro a ha b hb
              simp only [List.mem_singleton] at hb
              subst hb
              exact hget a ha
        · rw [if_neg hs] at hne
          exact absurd rfl hne
      · rw [if_neg hc] at hne ⊢
        push_neg at hc
        exact absurd hc.2 hne
  | del hook _ ih =>
      rename_i t hstep
      intro hne
      unfold kindDel at hne ⊢
      by_cases hmem : hook ∈ t.hooks
      · rw [if_pos hmem] at hne ⊢
        dsimp only at hne ⊢
        by_cases hsimp : t.simple = []
        · rw [hsimp] at hne
          simp at hne
        · obtain ⟨hmap, hsz, hpair⟩ := ih hsimp
          have hkey : t.simple.any (fun p => p.1 == hook.address) = true := by
            rw [hmap]
            simp only [List.any_eq_true, List.mem_map]
            exact ⟨(hook.address, hook), ⟨hook, hmem, rfl⟩, by simp⟩
          rw [if_pos hkey] at hne ⊢
          rw [hmap, dictDel, ← erase_map_filter t.hooks hook hpair hmem]
          refine ⟨rfl, ?_, ?_⟩
          · intro h hh
            exact hsz h (List.mem_of_mem_erase hh)
          · exact hpair.sublist (List.erase_sublist _ _)
      · rw [if_neg hmem] at hne ⊢
        exact ih hne

/-- Claim C10: after any sequence of hook_add / hook_del operations, the fast
path of `PbMemory.readByte` through the single-address hook dictionary fires
exactly the hooks a linear scan of the ordered hook list would fire, for
every accessed address — the dictionary is consulted only while every
registered hook of the kind has a unit range at a unique address, so the
optimisation is observationally equivalent to the linear scan. -/
theorem C10_simple_hook_map_equivalent (s : KindState) (h : Reach s) (address : Int) :
    firedFast s address = firedScan s address := by
  have inv := reach_simpleInv h
  unfold firedFast firedScan
  by_cases h0 : s.hooks = []
  · rw [if_pos h0, h0]
    rfl
  · rw [if_neg h0]
    by_cases h1 : s.simple = []
    · rw [if_neg (by simp [h1])]
    · rw [if_pos h1]
      obtain ⟨hmap, hsz, hpair⟩ := inv h1
      rw [hmap]
      exact dictGet_eq_filter s.hooks address hsz hpair

/-- Witness for C10: the state with one unit hook at address 5, reached by a
single hook_add, dispatches the same hooks through the dictionary as the
linear scan at address 5. -/
theorem C10_simple_hook_map_witness :
    Reach stateUnit5 ∧ firedFast stateUnit5 5 = firedScan stateUnit5 5 :=
  ⟨Reach.add hookUnit5 Reach.init,
    C10_simple_hook_map_equivalent stateUnit5 (Reach.add hookUnit5 Reach.init) 5⟩

end PyBeeb
